import Mathlib

/-!
# Verification of the Pintos file-system core

Shallow embedding of the buffer cache, inode layer and path/directory
layer of the repository, with theorems checking the natural-language
specification against the code.

Conventions of the embedding:
* C `off_t` (a signed 32-bit integer) is modelled as `Int`; C division and
  modulo on `off_t` truncate toward zero, so they are modelled by
  `Int.tdiv` / `Int.tmod`.
* `block_sector_t` (unsigned sector numbers) is modelled as `Nat`.
* The disk is modelled at the granularity at which the inode code accesses
  it: a sector is read/written either as a whole on-disk inode header, as a
  128-entry indirect map table, or as raw data bytes.  The three views are
  kept in separate fields of `DiskState`; every `bc_read`/`bc_write` in the
  inode code is translated to the corresponding typed access.
* `malloc`/`calloc` are assumed to succeed (their failure paths return 0 /
  false without touching the disk and are not the subject of any claim).
* Loops are translated to structurally recursive functions on an explicit
  fuel argument; callers pass fuel strictly larger than the number of
  iterations the loop can execute (each iteration consumes at least one
  unit of the quantity the fuel is derived from), so the fuel-exhaustion
  branch is unreachable.
-/

/-! ## Constants (`inode.c`, `buffer_cache.h`) -/

def BLOCK_SECTOR_SIZE : Int := 512

def DIRECT_BLOCK_ENTRIES : Int := 123

def INDIRECT_BLOCK_ENTRIES : Int := 512 / 4

def INODE_MAGIC : Nat := 0x494e4f44

/-! ## `locate_byte` (inode.c) -/

/-- `enum direct_t` from inode.c. -/
inductive Directness
  | NORMAL_DIRECT
  | INDIRECT
  | DOUBLE_INDIRECT
  | OUT_LIMIT
deriving DecidableEq, Repr

/-- `struct sector_location` from inode.c.  In the C code `index1`/`index2`
are left unset in the branches that do not use them; the embedding puts 0
there (no code path reads them in those cases). -/
structure SectorLocation where
  directness : Directness
  index1 : Int
  index2 : Int
deriving DecidableEq, Repr

/-- `locate_byte` from inode.c: classify byte offset `pos` into the
direct / indirect / double-indirect region of the inode map. -/
def locate_byte (pos : Int) : SectorLocation :=
  let pos_sector := pos.tdiv BLOCK_SECTOR_SIZE
  if pos_sector < DIRECT_BLOCK_ENTRIES then
    ⟨Directness.NORMAL_DIRECT, pos_sector, 0⟩
  else if pos_sector < DIRECT_BLOCK_ENTRIES + INDIRECT_BLOCK_ENTRIES then
    ⟨Directness.INDIRECT, pos_sector - DIRECT_BLOCK_ENTRIES, 0⟩
  else if pos_sector <
      DIRECT_BLOCK_ENTRIES + INDIRECT_BLOCK_ENTRIES * (INDIRECT_BLOCK_ENTRIES + 1) then
    let r := pos_sector - DIRECT_BLOCK_ENTRIES - INDIRECT_BLOCK_ENTRIES
    ⟨Directness.DOUBLE_INDIRECT, r.tdiv INDIRECT_BLOCK_ENTRIES, r.tmod INDIRECT_BLOCK_ENTRIES⟩
  else
    ⟨Directness.OUT_LIMIT, 0, 0⟩

/-! ## Disk model for the inode layer

The inode code accesses each sector in exactly one of three roles: as an
on-disk inode header (`bc_read`/`bc_write` of a whole `struct inode_disk`),
as an indirect map table (whole-block reads/writes and 4-byte reads/writes
at `map_table_offset (index)`), or as raw file data bytes.  `DiskState`
keeps the three views in separate fields, together with the free map. -/

/-- `struct inode_disk` from inode.c.  `direct_map_table` has 123 entries
(the code never indexes it beyond `DIRECT_BLOCK_ENTRIES`). -/
structure InodeDisk where
  direct_map_table : Nat → Nat
  indirect_block_sec : Nat
  double_indirect_block_sec : Nat
  length : Int
  magic : Nat
  is_dir : Nat

/-- The logical contents of the disk as seen through the buffer cache
(write-back caching is invisible at this level: `bc_read` after `bc_write`
returns the written data), plus the free map. -/
structure DiskState where
  header : Nat → InodeDisk
  table : Nat → Nat → Nat
  data : Nat → Int → Nat
  fmap : Nat → Bool
  fsize : Nat

/-- `bc_write` of a whole `struct inode_disk` to its header sector. -/
def writeHeader (st : DiskState) (sec : Nat) (d : InodeDisk) : DiskState :=
  { st with header := fun s => if s = sec then d else st.header s }

/-- `bc_write(sec, src, src_ofs, chunk, sector_ofs)` on a data sector:
copy `chunk` bytes from `src + src_ofs` into the sector at `sector_ofs`. -/
def writeBytes (st : DiskState) (sec : Nat) (src : Int → Nat)
    (src_ofs chunk sector_ofs : Int) : DiskState :=
  let f : Nat → Int → Nat := fun s o =>
    if s = sec ∧ sector_ofs ≤ o ∧ o < sector_ofs + chunk then
      src (src_ofs + (o - sector_ofs))
    else st.data s o
  { st with data := f }

/-- `bc_write` of a whole 128-entry indirect block. -/
def setTable (st : DiskState) (sec : Nat) (blk : Nat → Nat) : DiskState :=
  { st with table := fun t => if t = sec then blk else st.table t }

/-- 4-byte `bc_write` of one map-table entry at `map_table_offset idx`. -/
def updTable (st : DiskState) (sec idx val : Nat) : DiskState :=
  { st with table := fun t i => if t = sec ∧ i = idx then val else st.table t i }

/-- `free_map_allocate (1, &sector)`: first-fit scan of the free map for a
clear bit; sets the bit and returns the sector, or fails when the map is
exhausted. -/
def free_map_allocate (st : DiskState) : Option (Nat × DiskState) :=
  match (List.range st.fsize).find? (fun n => ! st.fmap n) with
  | some n => some (n, { st with fmap := fun m => if m = n then true else st.fmap m })
  | none => none

/-- `free_map_release (sector, 1)`: clear the sector's bit. -/
def free_map_release (st : DiskState) (sec : Nat) : DiskState :=
  { st with fmap := fun m => if m = sec then false else st.fmap m }

/-- `byte_to_sector` from inode.c: map a byte offset inside the file to its
data sector, dereferencing indirect blocks through the buffer cache.
Returns 0 when `pos` is at or beyond `length` or the slot is unallocated.
(The C code indexes map tables with the `int` fields of
`sector_location`; on every reachable path those are non-negative, and the
embedding converts them with `Int.toNat`.) -/
def byte_to_sector (st : DiskState) (d : InodeDisk) (pos : Int) : Nat :=
  if pos < d.length then
    let loc := locate_byte pos
    match loc.directness with
    | Directness.NORMAL_DIRECT => d.direct_map_table loc.index1.toNat
    | Directness.INDIRECT => st.table d.indirect_block_sec loc.index1.toNat
    | Directness.DOUBLE_INDIRECT =>
        st.table (st.table d.double_indirect_block_sec loc.index1.toNat) loc.index2.toNat
    | Directness.OUT_LIMIT => 0
  else 0

/-- `register_sector` from inode.c: record `new_sector` in the slot named
by `sec_loc`, allocating and zero-filling parent indirect blocks on
demand.  Returns the updated disk and in-memory inode, or `none` exactly
where the C code returns false (free-map exhaustion, or `OUT_LIMIT`). -/
def register_sector (st : DiskState) (d : InodeDisk) (new_sector : Nat)
    (loc : SectorLocation) : Option (DiskState × InodeDisk) :=
  match loc.directness with
  | Directness.NORMAL_DIRECT =>
      some (st, { d with direct_map_table := fun i =>
        if i = loc.index1.toNat then new_sector else d.direct_map_table i })
  | Directness.INDIRECT =>
      if d.indirect_block_sec = 0 then
        match free_map_allocate st with
        | some (s, st₁) =>
            some (setTable st₁ s (fun i => if i = loc.index1.toNat then new_sector else 0),
              { d with indirect_block_sec := s })
        | none => none
      else
        some (updTable st d.indirect_block_sec loc.index1.toNat new_sector, d)
  | Directness.DOUBLE_INDIRECT =>
      let step1 : Option (DiskState × InodeDisk) :=
        if d.double_indirect_block_sec = 0 then
          match free_map_allocate st with
          | some (s, st₁) =>
              some (setTable st₁ s (fun _ => 0), { d with double_indirect_block_sec := s })
          | none => none
        else some (st, d)
      match step1 with
      | none => none
      | some (st₁, d₁) =>
        let ind_block_2nd_level := st₁.table d₁.double_indirect_block_sec loc.index1.toNat
        if ind_block_2nd_level = 0 then
          match free_map_allocate st₁ with
          | some (s2, st₂) =>
              let st₃ := updTable st₂ d₁.double_indirect_block_sec loc.index1.toNat s2
              some (setTable st₃ s2 (fun i => if i = loc.index2.toNat then new_sector else 0), d₁)
          | none => none
        else
          some (updTable st₁ ind_block_2nd_level loc.index2.toNat new_sector, d₁)
  | Directness.OUT_LIMIT => none

/-- All-zero byte buffer (`calloc`ed `zeroes` in
`inode_update_file_length`). -/
def zeroes : Int → Nat := fun _ => 0

/-- The `while (size > 0)` loop of `inode_update_file_length`, on fuel.
Returns the final disk, the final in-memory inode, and the success flag;
on failure the disk reflects the allocations and writes performed before
the failing step (the C code does not roll them back). -/
def iufl_loop (st : DiskState) (d : InodeDisk) (size offset : Int) :
    Nat → DiskState × InodeDisk × Bool
  | 0 => (st, d, true)
  | fuel + 1 =>
    if size ≤ 0 then (st, d, true)
    else
      let sector_ofs := offset.tmod BLOCK_SECTOR_SIZE
      let sector_left := BLOCK_SECTOR_SIZE - sector_ofs
      let chunk_size := if size < sector_left then size else sector_left
      if chunk_size ≤ 0 then (st, d, true)
      else
        if sector_ofs > 0 then
          let sector_idx := byte_to_sector st d offset
          let st₁ := writeBytes st sector_idx zeroes 0 sector_left sector_ofs
          iufl_loop st₁ d (size - chunk_size) (offset + chunk_size) fuel
        else
          match free_map_allocate st with
          | some (sector_idx, st₁) =>
            let cur_loc := locate_byte offset
            match register_sector st₁ d sector_idx cur_loc with
            | none => (free_map_release st₁ sector_idx, d, false)
            | some (st₂, d₁) =>
              let st₃ := writeBytes st₂ sector_idx zeroes 0 BLOCK_SECTOR_SIZE 0
              iufl_loop st₃ d₁ (size - chunk_size) (offset + chunk_size) fuel
          | none => (st, d, false)

/-- `inode_update_file_length` from inode.c: extend the file over byte
range `[start_pos, end_pos]`, allocating and zero-filling new sectors at
sector boundaries and zero-filling tail bytes inside a partially used
sector.  Each loop iteration consumes at least one unit of `size`, so fuel
`size.toNat + 1` is never exhausted. -/
def inode_update_file_length (st : DiskState) (d : InodeDisk)
    (start_pos end_pos : Int) : DiskState × InodeDisk × Bool :=
  let size := end_pos - start_pos + 1
  iufl_loop st d size start_pos (size.toNat + 1)

/-- `struct inode` from inode.c (in-memory inode). -/
structure Inode where
  sector : Nat
  open_cnt : Int
  removed : Bool
  deny_write_cnt : Int

/-- Result of `inode_write_at`: final disk state, return value, and the
number of `lock_acquire`/`lock_release` operations performed on the
inode's `extend_lock`. -/
structure WriteResult where
  st : DiskState
  ret : Int
  acq : Nat
  rel : Nat

/-- The `while (size > 0)` copy loop of `inode_write_at`, on fuel.  Each
executed iteration consumes `chunk_size ≥ 1` of `size`, so fuel
`size.toNat + 1` is never exhausted. -/
def iwa_loop (d : InodeDisk) (buffer : Int → Nat) :
    DiskState → Int → Int → Int → Nat → DiskState × Int
  | st, _, _, bytes_written, 0 => (st, bytes_written)
  | st, size, offset, bytes_written, fuel + 1 =>
    if size ≤ 0 then (st, bytes_written)
    else
      let sector_ofs := offset.tmod BLOCK_SECTOR_SIZE
      let inode_left := d.length - offset
      let sector_left := BLOCK_SECTOR_SIZE - sector_ofs
      let min_left := if inode_left < sector_left then inode_left else sector_left
      let chunk_size := if size < min_left then size else min_left
      if chunk_size ≤ 0 then (st, bytes_written)
      else
        let sector_idx := byte_to_sector st d offset
        if sector_idx = 0 then (st, bytes_written)
        else
          iwa_loop d buffer (writeBytes st sector_idx buffer bytes_written chunk_size sector_ofs)
            (size - chunk_size) (offset + chunk_size) (bytes_written + chunk_size) fuel

/-- `inode_write_at` from inode.c.  Reads the on-disk inode, returns 0 when
`deny_write_cnt` is set, extends the file under the extension lock when the
write reaches past the current length (returning 0 — with the lock still
held — when growth fails), copies the payload sector by sector, and writes
the (possibly updated) header back. -/
def inode_write_at (st : DiskState) (inode : Inode) (buffer : Int → Nat)
    (size offset : Int) : WriteResult :=
  let d := st.header inode.sector
  if inode.deny_write_cnt ≠ 0 then
    ⟨st, 0, 0, 0⟩
  else
    let old_length := d.length
    let write_end := offset + size - 1
    if write_end > old_length - 1 then
      let d₁ := { d with length := write_end + 1 }
      match inode_update_file_length st d₁ old_length write_end with
      | (st₁, _, false) => ⟨st₁, 0, 1, 0⟩
      | (st₁, d₂, true) =>
        let r := iwa_loop d₂ buffer st₁ size offset 0 (size.toNat + 1)
        ⟨writeHeader r.1 inode.sector d₂, r.2, 1, 1⟩
    else
      let r := iwa_loop d buffer st size offset 0 (size.toNat + 1)
      ⟨writeHeader r.1 inode.sector d, r.2, 1, 1⟩

/-! ## `free_inode_sectors` and `inode_close` (inode.c) -/

/-- One `while (map_table[i] > 0) ... i++` scan of free_inode_sectors:
the entries of a 123- or 128-entry table up to (excluding) the first zero
entry.  The C loop has no explicit bound; `bound` is the size of the array
it walks. -/
def takeWhilePos (f : Nat → Nat) (bound : Nat) : List Nat :=
  ((List.range bound).map f).takeWhile (fun v => v != 0)

/-- `free_inode_sectors` from inode.c, as the ordered list of sectors
passed to `free_map_release`.  Faithful to the source, including the
single-indirect branch reading the block contents through
`inode_disk->double_indirect_block_sec` (the field its own comment says
should be the indirect block). -/
def free_inode_sectors (st : DiskState) (d : InodeDisk) : List Nat :=
  let dbl :=
    if d.double_indirect_block_sec > 0 then
      (takeWhilePos (st.table d.double_indirect_block_sec) 128).flatMap
          (fun s1 => takeWhilePos (st.table s1) 128 ++ [s1])
        ++ [d.double_indirect_block_sec]
    else []
  let ind :=
    if d.indirect_block_sec > 0 then
      takeWhilePos (st.table d.double_indirect_block_sec) 128 ++ [d.indirect_block_sec]
    else []
  dbl ++ ind ++ takeWhilePos d.direct_map_table 123

/-- `inode_close` from inode.c, as the ordered list of sectors released to
the free map: nothing unless the open count drops to zero; when it does and
the inode is `removed`, everything `free_inode_sectors` releases followed
by the inode header sector itself. -/
def inode_close_releases (st : DiskState) (inode : Inode) : List Nat :=
  if inode.open_cnt - 1 = 0 then
    if inode.removed then
      free_inode_sectors st (st.header inode.sector) ++ [inode.sector]
    else []
  else []

/-! ## Buffer cache (buffer_cache.c) -/

def BUFFER_CACHE_ENTRY_NB : Nat := 64

/-- `struct buffer_head`.  `sector` is `none` for the `-1` empty marker.
The per-head lock is irrelevant in this sequential model. -/
structure BufferHead where
  dirty : Bool
  valid : Bool
  sector : Option Nat
  clock_bit : Bool
  data : Int → Nat

/-- Buffer-cache state: the 64-slot head array (indices ≥ 64 are never
touched), the clock hand, and the underlying block device. -/
structure BCState where
  slots : Nat → BufferHead
  clock_hand : Nat
  disk : Nat → Int → Nat

/-- Write one slot of the head array. -/
def setSlot (st : BCState) (i : Nat) (h : BufferHead) : BCState :=
  { st with slots := fun j => if j = i then h else st.slots j }

/-- The `for (idx = 0; idx < BUFFER_CACHE_ENTRY_NB; idx++)` scan of
`bc_lookup`, with `n` slots left to scan starting at index `i`. -/
def bc_lookup_aux (st : BCState) (sector : Nat) : Nat → Nat → Option Nat
  | _, 0 => none
  | i, n + 1 =>
    if (st.slots i).sector = some sector then some i
    else bc_lookup_aux st sector (i + 1) n

/-- `bc_lookup` from buffer_cache.c: index of the first head whose
`sector` equals the argument, or `none`. -/
def bc_lookup (st : BCState) (sector : Nat) : Option Nat :=
  bc_lookup_aux st sector 0 BUFFER_CACHE_ENTRY_NB

/-- `bc_flush_entry` from buffer_cache.c: write the slot's data back to its
sector and clear `dirty`.  (A slot with `sector = none` is never dirty in
any reachable state; the embedding skips the device write there.) -/
def bc_flush_entry (st : BCState) (i : Nat) : BCState :=
  let h := st.slots i
  let st₁ :=
    match h.sector with
    | some s => { st with disk := fun t o => if t = s then h.data o else st.disk t o }
    | none => st
  setSlot st₁ i { h with dirty := false }

/-- The `while (1)` clock loop of `bc_select_victim`, on fuel: advance the
hand; a slot with its clock bit set gets the bit cleared and the scan
continues; the first slot with a clear bit gets the bit set and is
returned. -/
def bc_victim_loop : BCState → Nat → Option (BCState × Nat)
  | _, 0 => none
  | st, fuel + 1 =>
    let idx := if st.clock_hand = BUFFER_CACHE_ENTRY_NB then 0 else st.clock_hand
    let st₁ : BCState :=
      { st with clock_hand :=
          if st.clock_hand + 1 = BUFFER_CACHE_ENTRY_NB then 0 else st.clock_hand + 1 }
    if (st₁.slots idx).clock_bit then
      bc_victim_loop (setSlot st₁ idx { st₁.slots idx with clock_bit := false }) fuel
    else
      some (setSlot st₁ idx { st₁.slots idx with clock_bit := true }, idx)

/-- `bc_select_victim` from buffer_cache.c: clock replacement, then flush
the victim if dirty and reset its head.  Each loop iteration either clears
a set clock bit (at most 64 of them) or terminates, so fuel 66 is never
exhausted. -/
def bc_select_victim (st : BCState) : Option (BCState × Nat) :=
  match bc_victim_loop st (BUFFER_CACHE_ENTRY_NB + 2) with
  | none => none
  | some (st₁, idx) =>
    let st₂ := if (st₁.slots idx).dirty then bc_flush_entry st₁ idx else st₁
    some (setSlot st₂ idx { st₂.slots idx with dirty := false, valid := false, sector := none },
      idx)

/-- The `memcpy` + head-update tail of `bc_write` on slot `i`. -/
def bc_write_slot (st : BCState) (i : Nat) (sector : Nat) (src : Int → Nat)
    (src_ofs chunk sector_ofs : Int) : BCState :=
  let h := st.slots i
  let f : Int → Nat := fun o =>
    if sector_ofs ≤ o ∧ o < sector_ofs + chunk then
      src (src_ofs + (o - sector_ofs))
    else h.data o
  setSlot st i
    { h with data := f, dirty := true, valid := true, sector := some sector, clock_bit := true }

/-- `bc_write` from buffer_cache.c: look the sector up; on a miss, select a
victim and fault the sector in from the device (`block_read`); then copy
`chunk` bytes in at `sector_ofs` and update the head. -/
def bc_write (st : BCState) (sector : Nat) (src : Int → Nat)
    (src_ofs chunk sector_ofs : Int) : BCState × Bool :=
  match bc_lookup st sector with
  | some i => (bc_write_slot st i sector src src_ofs chunk sector_ofs, true)
  | none =>
    match bc_select_victim st with
    | none => (st, false)
    | some (st₁, i) =>
      let st₂ := setSlot st₁ i { st₁.slots i with data := st₁.disk sector }
      (bc_write_slot st₂ i sector src src_ofs chunk sector_ofs, true)

/-- Number of set clock bits among the first `n` entries of the bit
function `f`. -/
def countTrue (f : Nat → Bool) : Nat → Nat
  | 0 => 0
  | n + 1 => countTrue f n + (if f n then 1 else 0)

/-! ## Path resolver (`parse_path`, filesys.c)

The directory layer is abstracted by a lookup oracle
`look : Nat → String → Option (Nat × Bool)` mapping a directory's inode
sector and an entry name to the entry's inode sector and its
`inode_is_dir` flag; directory handles are identified with the sector of
the inode they are open on (`dir_open`/`dir_close` manage only memory). -/

def NAME_MAX : Nat := 14

def ROOT_DIR_SECTOR : Nat := 1

/-- Character-level scan behind `strtok_r (…, "/", …)`: `cur` accumulates
the current token (reversed); a `/` finishes it, consecutive `/`s produce
no empty tokens. -/
def tok_aux (cur : List Char) : List Char → List (List Char)
  | [] => if cur = [] then [] else [cur.reverse]
  | c :: rest =>
    if c = '/' then
      if cur = [] then tok_aux [] rest else cur.reverse :: tok_aux [] rest
    else tok_aux (c :: cur) rest

/-- The token list produced by repeated `strtok_r (…, "/", …)`: the
maximal non-empty runs of non-`/` characters. -/
def tokenize (path : String) : List String :=
  (tok_aux [] path.data).map (fun l => ⟨l⟩)

/-- The tail of `parse_path` once `token` holds the final token:
`strlcpy (file_name, token, NAME_MAX+1)` copies the first `NAME_MAX`
characters (the destination holds `NAME_MAX` characters plus the
terminator) and returns `strlen (token)`; the copy is rejected only when
that return value exceeds `NAME_MAX + 1`. -/
def parse_finish (dir : Nat) (token : String) : Option (Nat × String) :=
  let size := token.length
  if size > NAME_MAX + 1 then none
  else some (dir, ⟨token.data.take NAME_MAX⟩)

/-- The `while (token != NULL && nextToken != NULL)` walk of `parse_path`:
look each non-final token up in the current directory, failing when it is
missing or not a directory.  An empty token list is the `token == NULL`
case, where the C code substitutes `"."`. -/
def parse_path_go (look : Nat → String → Option (Nat × Bool)) :
    Nat → List String → Option (Nat × String)
  | dir, [] => parse_finish dir "."
  | dir, [t] => parse_finish dir t
  | dir, t₁ :: t₂ :: rest =>
    match look dir t₁ with
    | some (s, true) => parse_path_go look s (t₂ :: rest)
    | some (_, false) => none
    | none => none

/-- `parse_path` from filesys.c: empty input fails; a path starting with
`/` starts at the root directory, any other at the caller's current
directory; the walk resolves all but the final token; the final token (or
`"."` when there is none) becomes the leaf name. -/
def parse_path (look : Nat → String → Option (Nat × Bool)) (root cwd : Nat)
    (path : String) : Option (Nat × String) :=
  if path.length = 0 then none
  else
    let dir := match path.data with
      | '/' :: _ => root
      | _ => cwd
    parse_path_go look dir (tokenize path)

/-- The token left in `token` when the `parse_path` walk stops: the last
token of the list, or `"."` when there is none (the `token == NULL`
substitution). -/
def lastToken : List String → String
  | [] => "."
  | [t] => t
  | _ :: t₂ :: rest => lastToken (t₂ :: rest)

/-- The final token of a path as `parse_path` sees it. -/
def finalToken (path : String) : String := lastToken (tokenize path)

/-! ## Directory layer and `filesys_remove` (filesys.c)

directory.c is not part of the sources; its operations are modelled from
the spec (§4.4) and plugged into the `filesys_remove` wrapper, which is
translated from filesys.c. -/

/-- A directory entry `(name, inode_sector, in_use)`. -/
structure DEntry where
  name : String
  inode_sector : Nat
  in_use : Bool

/-- Directory-layer state: each directory's entry list keyed by its inode
sector, the `is_dir` flag of each on-disk inode, and the in-memory
`removed` flag of each inode (one in-memory inode per sector). -/
structure DirFS where
  dirs : Nat → List DEntry
  is_dir : Nat → Bool
  removed : Nat → Bool

/-- Modelled from the spec: `dir_lookup` (§4.4) — linear scan for an
`in_use` entry whose name matches; returns the referenced inode sector. -/
def dir_lookup (fs : DirFS) (dir : Nat) (name : String) : Option Nat :=
  ((fs.dirs dir).find? (fun e => e.in_use && e.name == name)).map (fun e => e.inode_sector)

/-- Mark the first `in_use` entry of the given name as `in_use := false`. -/
def clearFirst (name : String) : List DEntry → List DEntry
  | [] => []
  | e :: rest =>
    if e.in_use && e.name == name then { e with in_use := false } :: rest
    else e :: clearFirst name rest

/-- Modelled from the spec: `dir_remove` (§4.4) — find the entry, mark it
`in_use = false`, and mark the target inode `removed`; fails when there is
no live entry of that name. -/
def dir_remove (fs : DirFS) (dir : Nat) (name : String) : DirFS × Bool :=
  match dir_lookup fs dir name with
  | none => (fs, false)
  | some s =>
    let dirs' : Nat → List DEntry :=
      fun t => if t = dir then clearFirst name (fs.dirs dir) else fs.dirs t
    let removed' : Nat → Bool := fun t => if t = s then true else fs.removed t
    ({ fs with dirs := dirs', removed := removed' }, true)

/-- The `while (dir_readdir (child_dir, dir_name))` scan of
`filesys_remove`, which skips `.` and `..` and stops at any other live
entry (`dir_readdir` — modelled from the spec §4.4 — yields the names of
the `in_use` entries in order). -/
def has_non_dot_entry (l : List DEntry) : Bool :=
  l.any (fun e => e.in_use && !(e.name == ".") && !(e.name == ".."))

/-- The lookup oracle `parse_path` needs, derived from a `DirFS`. -/
def dirfs_look (fs : DirFS) : Nat → String → Option (Nat × Bool) :=
  fun d n => (dir_lookup fs d n).map (fun s => (s, fs.is_dir s))

/-- `filesys_remove` from filesys.c: parse the path, refuse a removed
parent, look the leaf up; when the target is a directory, allow removal
only when it contains no live entry besides `.` and `..`; then
`dir_remove`.  (`inode_close` on the target only drops the reference the
lookup took; the removed-flag/teardown interaction is claim C2.) -/
def filesys_remove (fs : DirFS) (cwd : Nat) (name : String) : DirFS × Bool :=
  match parse_path (dirfs_look fs) ROOT_DIR_SECTOR cwd name with
  | none => (fs, false)
  | some (dirSec, leaf) =>
    if fs.removed dirSec then (fs, false)
    else
      match dir_lookup fs dirSec leaf with
      | some s =>
        if fs.is_dir s then
          if has_non_dot_entry (fs.dirs s) then (fs, false)
          else dir_remove fs dirSec leaf
        else dir_remove fs dirSec leaf
      | none => dir_remove fs dirSec leaf

/-! ## `inode_create` and `filesys_create` (inode.c, filesys.c) -/

/-- `inode_create` from inode.c: build a zeroed on-disk inode with the
magic stamped and the length set; when `length > 0`, extend to length via
`inode_update_file_length` (whose failure propagates, leaving its partial
allocations in place); finally write the header to `sector`. -/
def inode_create (st : DiskState) (sector : Nat) (length : Int) (is_dir : Nat) :
    DiskState × Bool :=
  let disk_inode : InodeDisk :=
    { direct_map_table := fun _ => 0, indirect_block_sec := 0,
      double_indirect_block_sec := 0, length := length, magic := INODE_MAGIC,
      is_dir := is_dir }
  if length > 0 then
    match inode_update_file_length st disk_inode 0 (length - 1) with
    | (st₁, _, false) => (st₁, false)
    | (st₁, d₁, true) => (writeHeader st₁ sector d₁, true)
  else (writeHeader st sector disk_inode, true)

/-- `filesys_create` from filesys.c.  `dir_add` lives in directory.c
(absent from the sources) and is passed in as an oracle
`dirAdd st dir leaf sector`; `removedF` is the in-memory
`inode_is_removed` flag of each directory sector.  On failure after a
successful allocation (`inode_sector != 0`), the allocated header sector
is released. -/
def filesys_create (look : Nat → String → Option (Nat × Bool)) (removedF : Nat → Bool)
    (dirAdd : DiskState → Nat → String → Nat → DiskState × Bool)
    (cwd : Nat) (st : DiskState) (name : String) (initial_size : Int) :
    DiskState × Bool :=
  match parse_path look ROOT_DIR_SECTOR cwd name with
  | none => (st, false)
  | some (dirSec, leaf) =>
    if removedF dirSec then (st, false)
    else
      match free_map_allocate st with
      | none => (st, false)
      | some (inode_sector, st₁) =>
        match inode_create st₁ inode_sector initial_size 0 with
        | (st₂, false) =>
          (if inode_sector ≠ 0 then free_map_release st₂ inode_sector else st₂, false)
        | (st₂, true) =>
          match dirAdd st₂ dirSec leaf inode_sector with
          | (st₃, false) =>
            (if inode_sector ≠ 0 then free_map_release st₃ inode_sector else st₃, false)
          | (st₃, true) => (st₃, true)

/-! ## Concrete states used by witnesses and counterexamples -/

/-- A zeroed on-disk inode. -/
def blankInode : InodeDisk :=
  { direct_map_table := fun _ => 0, indirect_block_sec := 0,
    double_indirect_block_sec := 0, length := 0, magic := INODE_MAGIC, is_dir := 0 }

/-- A disk whose free map has sectors 0 and 1 allocated and 2..9 free. -/
def stBase : DiskState :=
  { header := fun _ => blankInode, table := fun _ _ => 0, data := fun _ _ => 0,
    fmap := fun n => decide (n < 2), fsize := 10 }

/-- A disk whose free map is completely exhausted. -/
def stFullMap : DiskState :=
  { header := fun _ => blankInode, table := fun _ _ => 0, data := fun _ _ => 0,
    fmap := fun _ => true, fsize := 10 }

/-- An open inode on sector 9 with one opener and writes denied. -/
def inoDeny : Inode := { sector := 9, open_cnt := 1, removed := false, deny_write_cnt := 1 }

/-- An open inode on sector 9 with one opener and writes allowed. -/
def inoPlain : Inode := { sector := 9, open_cnt := 1, removed := false, deny_write_cnt := 0 }

/-- On-disk inode for the C2 failing input: 125 sectors of data — direct
pointers `100+i`, and single-indirect block at sector 3 holding data
sectors 5 and 6; no double-indirect block. -/
def inodeC2 : InodeDisk :=
  { direct_map_table := fun i => 100 + i, indirect_block_sec := 3,
    double_indirect_block_sec := 0, length := 125 * 512, magic := INODE_MAGIC,
    is_dir := 0 }

/-- Disk for the C2 failing input: the header of sector 9 is `inodeC2`,
the indirect block at sector 3 lists data sectors 5 and 6, and sector 0
(which the buggy read dereferences) is all zeroes. -/
def stC2 : DiskState :=
  { header := fun s => if s = 9 then inodeC2 else blankInode,
    table := fun t i => if t = 3 ∧ i = 0 then 5 else if t = 3 ∧ i = 1 then 6 else 0,
    data := fun _ _ => 0, fmap := fun _ => true, fsize := 1024 }

/-- The last opener of the removed inode on sector 9. -/
def inoC2 : Inode := { sector := 9, open_cnt := 1, removed := true, deny_write_cnt := 0 }

/-- Disk for the C8 counterexample: exactly two free sectors (20 and 21)
on a 30-sector device. -/
def stC8 : DiskState :=
  { header := fun _ => blankInode, table := fun _ _ => 0, data := fun _ _ => 0,
    fmap := fun n => !(n == 20 || n == 21), fsize := 30 }

/-- A directory-lookup oracle with no entries at all. -/
def lookEmpty : Nat → String → Option (Nat × Bool) := fun _ _ => none

/-- A `dir_add` oracle that always fails (e.g. a duplicate name). -/
def dirAddFail : DiskState → Nat → String → Nat → DiskState × Bool :=
  fun st _ _ _ => (st, false)

/-- A `dir_add` oracle that succeeds without touching the disk. -/
def dirAddOk : DiskState → Nat → String → Nat → DiskState × Bool :=
  fun st _ _ _ => (st, true)

/-- No inode is marked removed. -/
def removedNone : Nat → Bool := fun _ => false

/-- An empty buffer cache over a disk whose sector 5 holds byte 7
everywhere. -/
def bcBase : BCState :=
  { slots := fun _ =>
      { dirty := false, valid := false, sector := none, clock_bit := false,
        data := fun _ => 0 },
    clock_hand := 0,
    disk := fun s _ => if s = 5 then 7 else 0 }

/-- Directory state for the C9 witness: the root (sector 1) holds `.`,
`..` and a subdirectory `d` on sector 5 whose only entries are `.` and
`..`. -/
def fsW : DirFS :=
  { dirs := fun t =>
      if t = 1 then
        [⟨".", 1, true⟩, ⟨"..", 1, true⟩, ⟨"d", 5, true⟩]
      else if t = 5 then
        [⟨".", 5, true⟩, ⟨"..", 1, true⟩]
      else [],
    is_dir := fun n => n == 1 || n == 5,
    removed := fun _ => false }

/-! ## Theorems -/

/-- Claim C3: for every inode with `deny_write_cnt > 0`, every call to
`inode_write_at` returns 0 and alters neither the file's length nor any
data sector — the whole disk state is returned unchanged, and no lock
operation is performed. -/
theorem inode_write_at_deny_write (st : DiskState) (inode : Inode)
    (buffer : Int → Nat) (size offset : Int) (h : 0 < inode.deny_write_cnt) :
    inode_write_at st inode buffer size offset = ⟨st, 0, 0, 0⟩ := by
  have h' : inode.deny_write_cnt ≠ 0 := by omega
  simp only [inode_write_at, if_pos h']

/-- Witness for C3: a denied write of 5 bytes at offset 0 on `stBase`
returns 0 and leaves the disk unchanged. -/
theorem inode_write_at_deny_write_witness :
    0 < inoDeny.deny_write_cnt ∧
    inode_write_at stBase inoDeny (fun _ => 65) 5 0 = ⟨stBase, 0, 0, 0⟩ :=
  ⟨by decide, inode_write_at_deny_write stBase inoDeny (fun _ => 65) 5 0 (by decide)⟩

/-- Claim C10 (code bug): at the failing input — a write of 1 byte at
offset 0 extending an empty file while the free map is exhausted —
`inode_write_at` returns 0 after acquiring the extension lock once and
releasing it zero times: the growth-failure return path leaks
`extend_lock`. -/
theorem inode_write_at_lock_leak :
    (inode_write_at stFullMap inoPlain (fun _ => 65) 1 0).ret = 0 ∧
    (inode_write_at stFullMap inoPlain (fun _ => 65) 1 0).acq = 1 ∧
    (inode_write_at stFullMap inoPlain (fun _ => 65) 1 0).rel = 0 := by
  decide

/-- Claim C2 (code bug): at the failing input `stC2`/`inoC2` — the last
opener closing a removed inode whose single-indirect block at sector 3
holds data sectors 5 and 6 and whose double-indirect pointer is 0 —
`inode_close` releases the indirect header (3) and the inode header (9)
but never releases data sector 5 (nor 6): the single-indirect branch of
`free_inode_sectors` reads the block contents through
`double_indirect_block_sec` (= 0) instead of `indirect_block_sec`. -/
theorem inode_close_misses_indirect_entries :
    (stC2.header 9).indirect_block_sec = 3 ∧
    stC2.table 3 0 = 5 ∧ stC2.table 3 1 = 6 ∧
    3 ∈ inode_close_releases stC2 inoC2 ∧
    9 ∈ inode_close_releases stC2 inoC2 ∧
    5 ∉ inode_close_releases stC2 inoC2 ∧
    6 ∉ inode_close_releases stC2 inoC2 := by
  decide

/-- Counterexample for C5: on the empty input string, `parse_path` returns
no directory at all, not the root directory with leaf `"."`. -/
theorem parse_path_empty_fails :
    parse_path lookEmpty 1 2 "" = none ∧
    parse_path lookEmpty 1 2 "" ≠ some (1, ".") := by
  decide

/-- Claim C5 as amended: `parse_path` applied to the string `"/"` alone
returns the root directory with the leaf name set to `"."`; the empty
input string fails (returns no directory). -/
theorem parse_path_root_and_empty (look : Nat → String → Option (Nat × Bool))
    (root cwd : Nat) :
    parse_path look root cwd "/" = some (root, ".") ∧
    parse_path look root cwd "" = none :=
  ⟨rfl, rfl⟩

/-- Helper: when the `parse_path` walk returns a directory, the leaf is
the first `NAME_MAX` characters of the last token and that token passed
the `size > NAME_MAX + 1` check. -/
theorem parse_path_go_some (look : Nat → String → Option (Nat × Bool)) :
    ∀ (toks : List String) (dir d : Nat) (leaf : String),
      parse_path_go look dir toks = some (d, leaf) →
      (lastToken toks).length ≤ NAME_MAX + 1 ∧
      leaf = ⟨(lastToken toks).data.take NAME_MAX⟩ := by
  intro toks
  induction toks with
  | nil =>
    intro dir d leaf h
    simp only [parse_path_go, parse_finish, lastToken] at h ⊢
    rw [if_neg (by decide)] at h
    simp only [Option.some.injEq, Prod.mk.injEq] at h
    exact ⟨by decide, h.2.symm⟩
  | cons t rest ih =>
    cases rest with
    | nil =>
      intro dir d leaf h
      simp only [parse_path_go, parse_finish, lastToken] at h ⊢
      by_cases hlen : t.length > NAME_MAX + 1
      · rw [if_pos hlen] at h
        exact absurd h (by simp)
      · rw [if_neg hlen] at h
        simp only [Option.some.injEq, Prod.mk.injEq] at h
        exact ⟨by omega, h.2.symm⟩
    | cons t₂ rest₂ =>
      intro dir d leaf h
      simp only [parse_path_go] at h
      have hlast : lastToken (t :: t₂ :: rest₂) = lastToken (t₂ :: rest₂) := rfl
      rw [hlast]
      cases hl : look dir t with
      | none => rw [hl] at h; exact absurd h (by simp)
      | some p =>
        rw [hl] at h
        obtain ⟨s, b⟩ := p
        cases b with
        | false => exact absurd h (by simp)
        | true => exact ih s d leaf h

/-- Helper: when the last token is longer than `NAME_MAX + 1` characters,
the `parse_path` walk fails no matter where it starts. -/
theorem parse_path_go_toolong (look : Nat → String → Option (Nat × Bool)) :
    ∀ (toks : List String) (dir : Nat),
      NAME_MAX + 1 < (lastToken toks).length →
      parse_path_go look dir toks = none := by
  intro toks
  induction toks with
  | nil =>
    intro dir h
    exact absurd h (by decide)
  | cons t rest ih =>
    cases rest with
    | nil =>
      intro dir h
      simp only [lastToken] at h
      simp only [parse_path_go, parse_finish]
      rw [if_pos (by omega)]
    | cons t₂ rest₂ =>
      intro dir h
      simp only [parse_path_go]
      cases hl : look dir t with
      | none => rfl
      | some p =>
        obtain ⟨s, b⟩ := p
        cases b with
        | false => rfl
        | true => exact ih s h

/-- Counterexample for C6: the 15-character final token
`"abcdefghijklmno"` is longer than `NAME_MAX = 14`, yet `parse_path` does
not fail — it succeeds and silently truncates the leaf to the first 14
characters. -/
theorem parse_path_accepts_long_leaf :
    NAME_MAX < ("abcdefghijklmno" : String).length ∧
    parse_path lookEmpty 1 2 "abcdefghijklmno" = some (2, "abcdefghijklmn") := by
  decide

/-- Claim C6 as amended: `parse_path` fails when the final token is longer
than `NAME_MAX + 1` characters; when it returns a directory, the leaf is
the final token truncated to its first `NAME_MAX` characters — in
particular a final token of length at most `NAME_MAX` is copied into
`leaf_out` unmodified, while a final token of exactly `NAME_MAX + 1`
characters is accepted truncated. -/
theorem parse_path_leaf_handling (look : Nat → String → Option (Nat × Bool))
    (root cwd : Nat) (path : String) :
    (NAME_MAX + 1 < (finalToken path).length →
      parse_path look root cwd path = none) ∧
    (∀ d leaf, parse_path look root cwd path = some (d, leaf) →
      (finalToken path).length ≤ NAME_MAX + 1 ∧
      leaf = ⟨(finalToken path).data.take NAME_MAX⟩ ∧
      ((finalToken path).length ≤ NAME_MAX → leaf = finalToken path)) := by
  constructor
  · intro h
    simp only [parse_path]
    by_cases h0 : path.length = 0
    · rw [if_pos h0]
    · rw [if_neg h0]
      exact parse_path_go_toolong look (tokenize path) _ h
  · intro d leaf h
    simp only [parse_path] at h
    by_cases h0 : path.length = 0
    · rw [if_pos h0] at h
      exact absurd h (by simp)
    · rw [if_neg h0] at h
      obtain ⟨h1, h2⟩ := parse_path_go_some look (tokenize path) _ d leaf h
      refine ⟨h1, h2, ?_⟩
      intro hle
      rw [h2]
      have htake : (lastToken (tokenize path)).data.take NAME_MAX =
          (lastToken (tokenize path)).data := List.take_of_length_le hle
      rw [htake]
      rfl

/-- Helper: `register_sector` never changes the in-memory inode's
`length` (it only records sector pointers). -/
theorem register_sector_length {st : DiskState} {d : InodeDisk} {ns : Nat}
    {loc : SectorLocation} {st' : DiskState} {d' : InodeDisk}
    (h : register_sector st d ns loc = some (st', d')) : d'.length = d.length := by
  obtain ⟨dir, i1, i2⟩ := loc
  cases dir with
  | NORMAL_DIRECT =>
    simp only [register_sector, Option.some.injEq, Prod.mk.injEq] at h
    rw [← h.2]
  | INDIRECT =>
    simp only [register_sector] at h
    by_cases h0 : d.indirect_block_sec = 0
    · rw [if_pos h0] at h
      cases halloc : free_map_allocate st with
      | none => rw [halloc] at h; exact Option.noConfusion h
      | some p =>
        obtain ⟨s, st₁⟩ := p
        rw [halloc] at h
        simp only [Option.some.injEq, Prod.mk.injEq] at h
        rw [← h.2]
    · rw [if_neg h0] at h
      simp only [Option.some.injEq, Prod.mk.injEq] at h
      rw [← h.2]
  | DOUBLE_INDIRECT =>
    simp only [register_sector] at h
    have hstep : ∀ (st₁ : DiskState) (d₁ : InodeDisk),
        (if d.double_indirect_block_sec = 0 then
          match free_map_allocate st with
          | some (s, st₁) =>
            some (setTable st₁ s (fun _ => 0), { d with double_indirect_block_sec := s })
          | none => none
        else some (st, d)) = some (st₁, d₁) → d₁.length = d.length := by
      intro st₁ d₁ hs
      by_cases h0 : d.double_indirect_block_sec = 0
      · rw [if_pos h0] at hs
        cases halloc : free_map_allocate st with
        | none => rw [halloc] at hs; exact Option.noConfusion hs
        | some p =>
          obtain ⟨s, st₂⟩ := p
          rw [halloc] at hs
          simp only [Option.some.injEq, Prod.mk.injEq] at hs
          rw [← hs.2]
      · rw [if_neg h0] at hs
        simp only [Option.some.injEq, Prod.mk.injEq] at hs
        rw [← hs.2]
    revert h
    cases hs : (if d.double_indirect_block_sec = 0 then
        match free_map_allocate st with
        | some (s, st₁) =>
          some (setTable st₁ s (fun _ => 0), { d with double_indirect_block_sec := s })
        | none => none
      else some (st, d)) with
    | none => intro h; exact Option.noConfusion h
    | some p =>
      obtain ⟨st₁, d₁⟩ := p
      have hd₁ : d₁.length = d.length := hstep st₁ d₁ hs
      intro h0
      have h : (if st₁.table d₁.double_indirect_block_sec i1.toNat = 0 then
          match free_map_allocate st₁ with
          | some (s2, st₂) =>
            some (setTable (updTable st₂ d₁.double_indirect_block_sec i1.toNat s2) s2
              (fun i => if i = i2.toNat then ns else 0), d₁)
          | none => none
        else
          some (updTable st₁ (st₁.table d₁.double_indirect_block_sec i1.toNat) i2.toNat ns,
            d₁)) = some (st', d') := h0
      by_cases ht : st₁.table d₁.double_indirect_block_sec i1.toNat = 0
      · rw [if_pos ht] at h
        cases halloc : free_map_allocate st₁ with
        | none => rw [halloc] at h; exact Option.noConfusion h
        | some q =>
          obtain ⟨s2, st₂⟩ := q
          rw [halloc] at h
          simp only [Option.some.injEq, Prod.mk.injEq] at h
          rw [← h.2]
          exact hd₁
      · rw [if_neg ht] at h
        simp only [Option.some.injEq, Prod.mk.injEq] at h
        rw [← h.2]
        exact hd₁
  | OUT_LIMIT => exact Option.noConfusion h

/-- Helper: the growth loop never changes the in-memory inode's
`length`. -/
theorem iufl_loop_length : ∀ (fuel : Nat) (st : DiskState) (d : InodeDisk)
    (size offset : Int), ((iufl_loop st d size offset fuel).2.1).length = d.length := by
  intro fuel
  induction fuel with
  | zero => intro st d size offset; rfl
  | succ n ih =>
    intro st d size offset
    simp only [iufl_loop]
    repeat' split
    all_goals try rfl
    all_goals try exact ih _ _ _ _
    all_goals rename_i hreg
    all_goals rw [ih _ _ _ _]
    all_goals exact register_sector_length hreg

/-- Helper: `inode_update_file_length` never changes the in-memory
inode's `length`. -/
theorem inode_update_file_length_length (st : DiskState) (d : InodeDisk)
    (start_pos end_pos : Int) :
    ((inode_update_file_length st d start_pos end_pos).2.1).length = d.length :=
  iufl_loop_length _ _ _ _ _

/-- Helper: the copy loop of `inode_write_at` never reports more bytes
written than `bytes_written + max size 0`. -/
theorem iwa_loop_ret_le (d : InodeDisk) (buffer : Int → Nat) :
    ∀ (fuel : Nat) (st : DiskState) (size offset bw : Int),
      (iwa_loop d buffer st size offset bw fuel).2 ≤ bw + max size 0 := by
  intro fuel
  induction fuel with
  | zero =>
    intro st size offset bw
    simp only [iwa_loop]
    omega
  | succ n ih =>
    intro st size offset bw
    simp only [iwa_loop]
    repeat' split
    all_goals first
      | omega
      | (refine le_trans (ih _ _ _ _) ?_
         omega)

/-- Claim C4: after any `inode_write_at` call that returns
`bytes_written > 0`, the file's length (in the on-disk inode header, which
the call writes back) satisfies `length ≥ previous_length` and
`length ≥ offset + bytes_written`. -/
theorem inode_write_at_grows_length (st : DiskState) (inode : Inode)
    (buffer : Int → Nat) (size offset : Int)
    (h : 0 < (inode_write_at st inode buffer size offset).ret) :
    ((inode_write_at st inode buffer size offset).st.header inode.sector).length ≥
      (st.header inode.sector).length ∧
    ((inode_write_at st inode buffer size offset).st.header inode.sector).length ≥
      offset + (inode_write_at st inode buffer size offset).ret := by
  revert h
  simp only [inode_write_at]
  by_cases hdeny : inode.deny_write_cnt ≠ 0
  · rw [if_pos hdeny]
    intro h
    simp at h
  · rw [if_neg hdeny]
    by_cases hgrow : offset + size - 1 > (st.header inode.sector).length - 1
    · rw [if_pos hgrow]
      split
      · intro h
        simp at h
      · rename_i st₁ d₂ heq
        intro h
        have hl := congrArg (fun p => p.2.1.length) heq
        dsimp only at hl
        rw [inode_update_file_length_length] at hl
        dsimp only at hl h ⊢
        have hret := iwa_loop_ret_le d₂ buffer (size.toNat + 1) st₁ size offset 0
        have hm := le_max_right size 0
        have hw : (writeHeader (iwa_loop d₂ buffer st₁ size offset 0 (size.toNat + 1)).1
            inode.sector d₂).header inode.sector = d₂ := by
          simp [writeHeader]
        rw [hw]
        omega
    · rw [if_neg hgrow]
      intro h
      have hret := iwa_loop_ret_le (st.header inode.sector) buffer (size.toNat + 1) st size offset 0
      have hm := le_max_right size 0
      dsimp only at h ⊢
      have hw : (writeHeader
          (iwa_loop (st.header inode.sector) buffer st size offset 0 (size.toNat + 1)).1
          inode.sector (st.header inode.sector)).header inode.sector =
          st.header inode.sector := by
        simp [writeHeader]
      rw [hw]
      omega

/-- Helper: `countTrue` only depends on the bits below the bound. -/
theorem countTrue_congr (f g : Nat → Bool) :
    ∀ n, (∀ j, j < n → f j = g j) → countTrue f n = countTrue g n := by
  intro n
  induction n with
  | zero => intro _; rfl
  | succ m ih =>
    intro hag
    simp only [countTrue]
    rw [ih (fun j hj => hag j (by omega)), hag m (by omega)]

/-- Helper: at most `n` of the first `n` bits are set. -/
theorem countTrue_le (f : Nat → Bool) : ∀ n, countTrue f n ≤ n := by
  intro n
  induction n with
  | zero => exact Nat.le_refl 0
  | succ m ih =>
    simp only [countTrue]
    split <;> omega

/-- Helper: clearing one set bit below the bound decrements the count. -/
theorem countTrue_update (f : Nat → Bool) (idx : Nat) :
    ∀ n, idx < n → f idx = true →
      countTrue (fun j => if j = idx then false else f j) n + 1 = countTrue f n := by
  intro n
  induction n with
  | zero => omega
  | succ m ih =>
    intro hlt htrue
    simp only [countTrue]
    by_cases hm : idx = m
    · subst hm
      have hc : countTrue (fun j => if j = idx then false else f j) idx = countTrue f idx :=
        countTrue_congr _ _ idx (fun j hj => by rw [if_neg (by omega)])
      simp only [if_pos rfl, htrue, if_true]
      simp only [show ((false : Bool) = true) = False by simp, if_false]
      omega
    · have hmm : ¬(m = idx) := fun hh => hm hh.symm
      simp only [if_neg hmm]
      have := ih (by omega) htrue
      omega

/-- Helper: the clock loop of `bc_select_victim` terminates within the
fuel whenever the fuel exceeds the number of set clock bits, returns a
victim index below 64, and touches nothing but clock bits and the clock
hand. -/
theorem bc_victim_loop_spec :
    ∀ (fuel : Nat) (st : BCState), st.clock_hand < BUFFER_CACHE_ENTRY_NB →
      countTrue (fun i => (st.slots i).clock_bit) BUFFER_CACHE_ENTRY_NB < fuel →
      ∃ st' idx, bc_victim_loop st fuel = some (st', idx) ∧
        idx < BUFFER_CACHE_ENTRY_NB ∧
        (∀ j, (st'.slots j).sector = (st.slots j).sector) ∧
        (∀ j, (st'.slots j).data = (st.slots j).data) ∧
        (∀ j, (st'.slots j).dirty = (st.slots j).dirty) ∧
        st'.disk = st.disk := by
  intro fuel
  induction fuel with
  | zero =>
    intro st _ hcount
    omega
  | succ n ih =>
    intro st hhand hcount
    have hB : BUFFER_CACHE_ENTRY_NB = 64 := rfl
    have hidx : (if st.clock_hand = BUFFER_CACHE_ENTRY_NB then 0 else st.clock_hand) =
        st.clock_hand := if_neg (by omega)
    simp only [bc_victim_loop, hidx]
    by_cases hbit : (st.slots st.clock_hand).clock_bit
    · rw [if_pos hbit]
      set st₁ : BCState :=
        { slots := st.slots,
          clock_hand := if st.clock_hand + 1 = BUFFER_CACHE_ENTRY_NB then 0
            else st.clock_hand + 1,
          disk := st.disk } with hst₁
      set st₂ := setSlot st₁ st.clock_hand
        { st₁.slots st.clock_hand with clock_bit := false } with hst₂
      have hhand₂ : st₂.clock_hand < BUFFER_CACHE_ENTRY_NB := by
        have : st₂.clock_hand =
            if st.clock_hand + 1 = BUFFER_CACHE_ENTRY_NB then 0 else st.clock_hand + 1 := rfl
        rw [this]
        split <;> omega
      have hcount₂ :
          countTrue (fun i => (st₂.slots i).clock_bit) BUFFER_CACHE_ENTRY_NB < n := by
        have he : ∀ j, j < BUFFER_CACHE_ENTRY_NB →
            ((fun i => (st₂.slots i).clock_bit) j) =
            ((fun j => if j = st.clock_hand then false
              else (fun i => (st.slots i).clock_bit) j) j) := by
          intro j _
          simp only [hst₂, hst₁, setSlot]
          split <;> rfl
        have hc := countTrue_congr (fun i => (st₂.slots i).clock_bit)
          (fun j => if j = st.clock_hand then false else (fun i => (st.slots i).clock_bit) j)
          BUFFER_CACHE_ENTRY_NB he
        have hu := countTrue_update (fun i => (st.slots i).clock_bit)
          st.clock_hand BUFFER_CACHE_ENTRY_NB hhand hbit
        omega
      obtain ⟨st', idx, hrun, hlt, hsec, hdata, hdirty, hdisk⟩ := ih st₂ hhand₂ hcount₂
      refine ⟨st', idx, hrun, hlt, ?_, ?_, ?_, ?_⟩
      · intro j
        rw [hsec j]
        simp only [hst₂, hst₁, setSlot]
        split
        · rename_i hj
          subst hj
          rfl
        · rfl
      · intro j
        rw [hdata j]
        simp only [hst₂, hst₁, setSlot]
        split
        · rename_i hj
          subst hj
          rfl
        · rfl
      · intro j
        rw [hdirty j]
        simp only [hst₂, hst₁, setSlot]
        split
        · rename_i hj
          subst hj
          rfl
        · rfl
      · rw [hdisk]
        rfl
    · rw [if_neg hbit]
      refine ⟨_, st.clock_hand, rfl, hhand, ?_, ?_, ?_, rfl⟩
      · intro j
        simp only [setSlot]
        split
        · rename_i hj
          subst hj
          rfl
        · rfl
      · intro j
        simp only [setSlot]
        split
        · rename_i hj
          subst hj
          rfl
        · rfl
      · intro j
        simp only [setSlot]
        split
        · rename_i hj
          subst hj
          rfl
        · rfl

/-- Helper: a `none` result of the `bc_lookup` scan means no scanned slot
holds the sector. -/
theorem bc_lookup_aux_none (st : BCState) (sector : Nat) :
    ∀ (n i : Nat), bc_lookup_aux st sector i n = none →
      ∀ k, i ≤ k → k < i + n → (st.slots k).sector ≠ some sector := by
  intro n
  induction n with
  | zero => intro i _ k hk1 hk2; omega
  | succ m ih =>
    intro i h k hk1 hk2
    simp only [bc_lookup_aux] at h
    by_cases hs : (st.slots i).sector = some sector
    · rw [if_pos hs] at h
      exact Option.noConfusion h
    · rw [if_neg hs] at h
      by_cases hik : k = i
      · subst hik; exact hs
      · exact ih (i + 1) h k (by omega) (by omega)

/-- Helper: the `bc_lookup` scan finds the unique matching slot. -/
theorem bc_lookup_aux_some_of (st : BCState) (sector : Nat) :
    ∀ (n i tgt : Nat), i ≤ tgt → tgt < i + n →
      (st.slots tgt).sector = some sector →
      (∀ k, k < tgt → (st.slots k).sector ≠ some sector) →
      bc_lookup_aux st sector i n = some tgt := by
  intro n
  induction n with
  | zero => intro i tgt h1 h2 _ _; omega
  | succ m ih =>
    intro i tgt h1 h2 hmatch hpre
    simp only [bc_lookup_aux]
    by_cases hs : (st.slots i).sector = some sector
    · have hit : i = tgt := by
        by_contra hne
        exact hpre i (by omega) hs
      rw [if_pos hs, hit]
    · rw [if_neg hs]
      have h1' : i + 1 ≤ tgt := by
        rcases Nat.eq_or_lt_of_le h1 with he | hl
        · exact absurd (he ▸ hmatch) hs
        · omega
      exact ih (i + 1) tgt h1' (by omega) hmatch hpre

/-- Helper: `bc_flush_entry` does not change any slot's `sector` or
`data` fields (it only clears `dirty` and writes the device). -/
theorem bc_flush_entry_slots (st : BCState) (i j : Nat) :
    ((bc_flush_entry st i).slots j).sector = (st.slots j).sector ∧
    ((bc_flush_entry st i).slots j).data = (st.slots j).data := by
  simp only [bc_flush_entry]
  cases hms : (st.slots i).sector with
  | none =>
    simp only [hms, setSlot]
    split
    · rename_i hj
      subst hj
      exact ⟨hms.symm ▸ rfl, rfl⟩
    · exact ⟨rfl, rfl⟩
  | some s =>
    simp only [hms, setSlot]
    split
    · rename_i hj
      subst hj
      exact ⟨hms.symm ▸ rfl, rfl⟩
    · exact ⟨rfl, rfl⟩

/-- Helper: `bc_flush_entry` only writes the device at the flushed slot's
own sector. -/
theorem bc_flush_entry_disk (st : BCState) (i t : Nat)
    (ht : (st.slots i).sector ≠ some t) :
    ∀ o : Int, (bc_flush_entry st i).disk t o = st.disk t o := by
  intro o
  simp only [bc_flush_entry]
  cases hms : (st.slots i).sector with
  | none => simp only [hms, setSlot]
  | some s =>
    simp only [hms, setSlot]
    have hst : t ≠ s := by
      intro he
      exact ht (he ▸ hms)
    rw [if_neg hst]

/-- Helper: when no cached slot holds `target`, `bc_select_victim`
succeeds, hands back a victim slot below 64 whose head is reset to
`sector = none`, leaves every other slot's `sector` alone, and leaves the
device contents of `target` alone. -/
theorem bc_select_victim_spec (st : BCState) (target : Nat)
    (hhand : st.clock_hand < BUFFER_CACHE_ENTRY_NB)
    (hmiss : ∀ j, j < BUFFER_CACHE_ENTRY_NB → (st.slots j).sector ≠ some target) :
    ∃ st' idx, bc_select_victim st = some (st', idx) ∧
      idx < BUFFER_CACHE_ENTRY_NB ∧
      (∀ j, j ≠ idx → (st'.slots j).sector = (st.slots j).sector) ∧
      (st'.slots idx).sector = none ∧
      (∀ o : Int, st'.disk target o = st.disk target o) := by
  have hcle := countTrue_le (fun i => (st.slots i).clock_bit) BUFFER_CACHE_ENTRY_NB
  have hB : BUFFER_CACHE_ENTRY_NB = 64 := rfl
  obtain ⟨st₁, idx, hrun, hlt, hsec, hdata, hdirty, hdisk⟩ :=
    bc_victim_loop_spec (BUFFER_CACHE_ENTRY_NB + 2) st hhand (by omega)
  simp only [bc_select_victim, hrun]
  have hsecflush : ∀ j,
      ((if (st₁.slots idx).dirty then bc_flush_entry st₁ idx else st₁).slots j).sector =
      (st.slots j).sector := by
    intro j
    split
    · rw [(bc_flush_entry_slots st₁ idx j).1]
      exact hsec j
    · exact hsec j
  have hdiskflush : ∀ o : Int,
      ((if (st₁.slots idx).dirty then bc_flush_entry st₁ idx else st₁).disk target o) =
      st.disk target o := by
    intro o
    split
    · rw [bc_flush_entry_disk st₁ idx target (by rw [hsec idx]; exact hmiss idx hlt) o]
      rw [hdisk]
    · rw [hdisk]
  refine ⟨_, idx, rfl, hlt, ?_, ?_, ?_⟩
  · intro j hj
    simp only [setSlot]
    rw [if_neg hj]
    exact hsecflush j
  · simp only [setSlot, eq_self_iff_true, if_true]
  · intro o
    simp only [setSlot]
    exact hdiskflush o

/-- Claim C7: for every `bc_write` with `chunk < SECTOR_SIZE` on a sector
not resident in the cache, the sector's prior on-disk contents are read
into the slot before the copy-in, so afterwards every byte of the cached
sector outside `[sector_ofs, sector_ofs + chunk)` equals the
corresponding prior on-disk byte. -/
theorem bc_write_preserves_outside_bytes (st : BCState) (sector : Nat)
    (src : Int → Nat) (src_ofs chunk sector_ofs : Int)
    (hmiss : bc_lookup st sector = none)
    (hchunk : chunk < 512)
    (hhand : st.clock_hand < BUFFER_CACHE_ENTRY_NB) :
    (bc_write st sector src src_ofs chunk sector_ofs).2 = true ∧
    ∃ i, i < BUFFER_CACHE_ENTRY_NB ∧
      bc_lookup (bc_write st sector src src_ofs chunk sector_ofs).1 sector = some i ∧
      ∀ o : Nat, o < 512 → ((o : Int) < sector_ofs ∨ sector_ofs + chunk ≤ (o : Int)) →
        (((bc_write st sector src src_ofs chunk sector_ofs).1.slots i).data o =
          st.disk sector o) := by
  have hmiss' : ∀ j, j < BUFFER_CACHE_ENTRY_NB → (st.slots j).sector ≠ some sector :=
    fun j hj => bc_lookup_aux_none st sector BUFFER_CACHE_ENTRY_NB 0 hmiss j (by omega)
      (by omega)
  obtain ⟨st₁, idx, hvic, hlt, hsec₁, hsecnone, hdisk₁⟩ :=
    bc_select_victim_spec st sector hhand hmiss'
  simp only [bc_write, hmiss, hvic]
  refine ⟨trivial, idx, hlt, ?_, ?_⟩
  · apply bc_lookup_aux_some_of
    · omega
    · omega
    · simp only [bc_write_slot, setSlot, eq_self_iff_true, if_true]
    · intro k hk
      simp only [bc_write_slot, setSlot]
      rw [if_neg (by omega), if_neg (by omega)]
      rw [hsec₁ k (by omega)]
      exact hmiss' k (by omega)
  · intro o ho hout
    have hcond : ¬(sector_ofs ≤ (o : Int) ∧ (o : Int) < sector_ofs + chunk) := by omega
    simp only [bc_write_slot, setSlot, eq_self_iff_true, if_true]
    rw [if_neg hcond]
    exact hdisk₁ o

/-- Witness for C4: a successful 1-byte write at offset 0 into an empty
file on `stBase` returns 1 and leaves the header length at 1 ≥ 0 and
1 ≥ 0 + 1. -/
theorem inode_write_at_grows_length_witness :
    0 < (inode_write_at stBase inoPlain (fun _ => 65) 1 0).ret ∧
    (((inode_write_at stBase inoPlain (fun _ => 65) 1 0).st.header inoPlain.sector).length ≥
      (stBase.header inoPlain.sector).length ∧
    ((inode_write_at stBase inoPlain (fun _ => 65) 1 0).st.header inoPlain.sector).length ≥
      0 + (inode_write_at stBase inoPlain (fun _ => 65) 1 0).ret) :=
  ⟨by decide, inode_write_at_grows_length stBase inoPlain (fun _ => 65) 1 0 (by decide)⟩

/-- Witness for C7: writing 4 bytes at sector offset 3 of non-resident
sector 5 into the empty cache `bcBase` faults the sector in first, so all
bytes outside `[3, 7)` still read the prior on-disk value. -/
theorem bc_write_preserves_outside_bytes_witness :
    (bc_lookup bcBase 5 = none ∧ (4 : Int) < 512 ∧
      bcBase.clock_hand < BUFFER_CACHE_ENTRY_NB) ∧
    ((bc_write bcBase 5 (fun _ => 9) 0 4 3).2 = true ∧
    ∃ i, i < BUFFER_CACHE_ENTRY_NB ∧
      bc_lookup (bc_write bcBase 5 (fun _ => 9) 0 4 3).1 5 = some i ∧
      ∀ o : Nat, o < 512 → ((o : Int) < 3 ∨ 3 + 4 ≤ (o : Int)) →
        (((bc_write bcBase 5 (fun _ => 9) 0 4 3).1.slots i).data o = bcBase.disk 5 o)) :=
  ⟨⟨by decide, by decide, by decide⟩,
    bc_write_preserves_outside_bytes bcBase 5 (fun _ => 9) 0 4 3 (by decide) (by decide)
      (by decide)⟩

/-- Counterexample for C8: creating a 1024-byte file when only two
sectors are free allocates the header (20) and one data sector (21), then
fails for lack of space; the rollback releases the header sector only, so
the failing `filesys_create` leaves data sector 21 allocated — the free
map is not as it was before the call. -/
theorem filesys_create_leaks_data_sector :
    (filesys_create lookEmpty removedNone dirAddOk 1 stC8 "f" 1024).2 = false ∧
    stC8.fmap 21 = false ∧
    (filesys_create lookEmpty removedNone dirAddOk 1 stC8 "f" 1024).1.fmap 21 = true := by
  decide

/-- Claim C8 as amended: if `filesys_create` allocates an inode sector
from the free map (a non-zero sector) but then fails (`inode_create` or
`dir_add` returns false), the allocated inode sector is released: it is
free after the call, as it was before.  (Data sectors allocated by a
partially successful `inode_create` are not rolled back.) -/
theorem filesys_create_releases_inode_sector
    (look : Nat → String → Option (Nat × Bool)) (removedF : Nat → Bool)
    (dirAdd : DiskState → Nat → String → Nat → DiskState × Bool)
    (cwd : Nat) (st : DiskState) (name : String) (initial_size : Int)
    (dirSec inode_sector : Nat) (leaf : String)
    (hparse : parse_path look ROOT_DIR_SECTOR cwd name = some (dirSec, leaf))
    (hrem : removedF dirSec = false)
    (halloc : (free_map_allocate st).map (fun p => p.1) = some inode_sector)
    (hsec : inode_sector ≠ 0)
    (hfail : (filesys_create look removedF dirAdd cwd st name initial_size).2 = false) :
    (filesys_create look removedF dirAdd cwd st name initial_size).1.fmap inode_sector =
      false ∧
    st.fmap inode_sector = false := by
  cases ha : free_map_allocate st with
  | none => rw [ha] at halloc; exact Option.noConfusion halloc
  | some p =>
    obtain ⟨n, st₁⟩ := p
    rw [ha] at halloc
    simp only [Option.map, Option.some.injEq] at halloc
    subst halloc
    constructor
    · revert hfail
      simp only [filesys_create, hparse, hrem, Bool.false_eq_true, if_false, ha]
      cases hic : inode_create st₁ n initial_size 0 with
      | mk st₂ ok =>
        cases ok with
        | false =>
          intro _
          simp only [if_pos hsec, free_map_release, eq_self_iff_true, if_true]
        | true =>
          cases hda : dirAdd st₂ dirSec leaf n with
          | mk st₃ ok₃ =>
            cases ok₃ with
            | false =>
              intro _
              simp only [hda, if_pos hsec, free_map_release, eq_self_iff_true, if_true]
            | true =>
              intro hfail
              simp [hda] at hfail
    · revert ha
      simp only [free_map_allocate]
      cases hf : (List.range st.fsize).find? (fun k => ! st.fmap k) with
      | none =>
        intro hcontra
        exact Option.noConfusion hcontra
      | some m =>
        intro ha2
        simp only [Option.some.injEq, Prod.mk.injEq] at ha2
        have hm := List.find?_some hf
        rw [← ha2.1]
        simpa using hm

/-- Witness for C8: with size 0 and a failing `dir_add`, the allocated
header sector 2 is free again after the failing call, as it was before. -/
theorem filesys_create_releases_inode_sector_witness :
    (filesys_create lookEmpty removedNone dirAddFail 1 stBase "a" 0).1.fmap 2 = false ∧
    stBase.fmap 2 = false :=
  filesys_create_releases_inode_sector lookEmpty removedNone dirAddFail 1 stBase "a" 0
    1 2 "a" (by decide) (by decide) (by decide) (by decide) (by decide)

/-- Claim C9: when `filesys_remove` resolves its path to a directory
inode, it refuses (returns false and changes nothing) if the directory
holds any live entry besides `.` and `..`; when the directory holds only
`.` and `..`, the removal succeeds, marks the target inode removed, and
clears its entry in the parent directory. -/
theorem filesys_remove_empty_dir_check
    (fs : DirFS) (cwd : Nat) (name : String) (dirSec s : Nat) (leaf : String)
    (hparse : parse_path (dirfs_look fs) ROOT_DIR_SECTOR cwd name = some (dirSec, leaf))
    (hprem : fs.removed dirSec = false)
    (hlook : dir_lookup fs dirSec leaf = some s)
    (hdir : fs.is_dir s = true) :
    (has_non_dot_entry (fs.dirs s) = true →
      (filesys_remove fs cwd name).2 = false ∧ (filesys_remove fs cwd name).1 = fs) ∧
    (has_non_dot_entry (fs.dirs s) = false →
      (filesys_remove fs cwd name).2 = true ∧
      (filesys_remove fs cwd name).1.removed s = true ∧
      (filesys_remove fs cwd name).1.dirs dirSec = clearFirst leaf (fs.dirs dirSec)) := by
  simp only [filesys_remove, hparse, hprem, Bool.false_eq_true, if_false, hlook, hdir,
    if_true]
  constructor
  · intro hne
    rw [if_pos hne]
    exact ⟨rfl, rfl⟩
  · intro hne
    rw [if_neg (by simp [hne])]
    simp only [dir_remove, hlook]
    refine ⟨trivial, ?_, ?_⟩
    · simp
    · simp

/-- Witness for C9: removing `/d` in `fsW` — where `d` is a directory on
sector 5 holding only `.` and `..` — succeeds, marks sector 5 removed,
and clears the entry in the root. -/
theorem filesys_remove_empty_dir_check_witness :
    (has_non_dot_entry (fsW.dirs 5) = true →
      (filesys_remove fsW 1 "/d").2 = false ∧ (filesys_remove fsW 1 "/d").1 = fsW) ∧
    (has_non_dot_entry (fsW.dirs 5) = false →
      (filesys_remove fsW 1 "/d").2 = true ∧
      (filesys_remove fsW 1 "/d").1.removed 5 = true ∧
      (filesys_remove fsW 1 "/d").1.dirs 1 = clearFirst "d" (fsW.dirs 1)) :=
  filesys_remove_empty_dir_check fsW 1 "/d" 1 5 "d" (by decide) (by decide) (by decide)
    (by decide)

/-- Witness for C6: a 16-character final token makes `parse_path` fail,
and a 3-character final token is copied unmodified. -/
theorem parse_path_leaf_handling_witness :
    parse_path lookEmpty 1 2 "abcdefghijklmnop" = none ∧
    ((finalToken "abc").length ≤ NAME_MAX → "abc" = finalToken "abc") :=
  ⟨(parse_path_leaf_handling lookEmpty 1 2 "abcdefghijklmnop").1 (by decide),
    ((parse_path_leaf_handling lookEmpty 1 2 "abc").2 2 "abc" (by decide)).2.2⟩

/-- Claim C1: for every non-negative byte offset `pos`, `locate_byte`
computes `s = pos / SECTOR_SIZE` and classifies: direct with `index1 = s`
when `s < 123`; indirect with `index1 = s - 123` when `123 ≤ s < 123+128`;
double-indirect with `index1 = (s-123-128)/128` and
`index2 = (s-123-128)%128` when `s < 123 + 128*(1+128)`; out-of-range
otherwise. -/
theorem locate_byte_classification (pos : Int) (hpos : 0 ≤ pos) :
    (pos.tdiv 512 < 123 →
      (locate_byte pos).directness = Directness.NORMAL_DIRECT ∧
      (locate_byte pos).index1 = pos.tdiv 512) ∧
    (123 ≤ pos.tdiv 512 ∧ pos.tdiv 512 < 123 + 128 →
      (locate_byte pos).directness = Directness.INDIRECT ∧
      (locate_byte pos).index1 = pos.tdiv 512 - 123) ∧
    (123 + 128 ≤ pos.tdiv 512 ∧ pos.tdiv 512 < 123 + 128 * (1 + 128) →
      (locate_byte pos).directness = Directness.DOUBLE_INDIRECT ∧
      (locate_byte pos).index1 = (pos.tdiv 512 - 123 - 128).tdiv 128 ∧
      (locate_byte pos).index2 = (pos.tdiv 512 - 123 - 128).tmod 128) ∧
    (123 + 128 * (1 + 128) ≤ pos.tdiv 512 →
      (locate_byte pos).directness = Directness.OUT_LIMIT) := by
  have hs : pos.tdiv BLOCK_SECTOR_SIZE = pos.tdiv 512 := by norm_num [BLOCK_SECTOR_SIZE]
  refine ⟨?_, ?_, ?_, ?_⟩
  · intro h
    simp only [locate_byte, hs, DIRECT_BLOCK_ENTRIES, INDIRECT_BLOCK_ENTRIES]
    rw [if_pos (by omega)]
    exact ⟨rfl, rfl⟩
  · rintro ⟨h1, h2⟩
    simp only [locate_byte, hs, DIRECT_BLOCK_ENTRIES, INDIRECT_BLOCK_ENTRIES]
    rw [if_neg (by omega), if_pos (by norm_num; omega)]
    norm_num
  · rintro ⟨h1, h2⟩
    simp only [locate_byte, hs, DIRECT_BLOCK_ENTRIES, INDIRECT_BLOCK_ENTRIES]
    rw [if_neg (by omega), if_neg (by norm_num; omega), if_pos (by norm_num; omega)]
    norm_num
  · intro h
    simp only [locate_byte, hs, DIRECT_BLOCK_ENTRIES, INDIRECT_BLOCK_ENTRIES]
    rw [if_neg (by omega), if_neg (by norm_num; omega), if_neg (by norm_num; omega)]

/-- Witness for C1 at `pos = 153600` (sector 300, in the double-indirect
region). -/
theorem locate_byte_classification_witness :
    0 ≤ (153600 : Int) ∧
    (((153600 : Int).tdiv 512 < 123 →
      (locate_byte 153600).directness = Directness.NORMAL_DIRECT ∧
      (locate_byte 153600).index1 = (153600 : Int).tdiv 512) ∧
    (123 ≤ (153600 : Int).tdiv 512 ∧ (153600 : Int).tdiv 512 < 123 + 128 →
      (locate_byte 153600).directness = Directness.INDIRECT ∧
      (locate_byte 153600).index1 = (153600 : Int).tdiv 512 - 123) ∧
    (123 + 128 ≤ (153600 : Int).tdiv 512 ∧
        (153600 : Int).tdiv 512 < 123 + 128 * (1 + 128) →
      (locate_byte 153600).directness = Directness.DOUBLE_INDIRECT ∧
      (locate_byte 153600).index1 = ((153600 : Int).tdiv 512 - 123 - 128).tdiv 128 ∧
      (locate_byte 153600).index2 = ((153600 : Int).tdiv 512 - 123 - 128).tmod 128) ∧
    (123 + 128 * (1 + 128) ≤ (153600 : Int).tdiv 512 →
      (locate_byte 153600).directness = Directness.OUT_LIMIT)) :=
  ⟨by decide, locate_byte_classification 153600 (by decide)⟩

